import Mathlib

/-!
Shallow embedding of the OLED display driver core of this repository
(`internal/display/display.go`): a 4-line by 16-column character grid with
per-cell dirty tracking (`charPositions`), a previous-rendered snapshot
(`prevLines`), a sparse per-cell redraw pass (`redrawChangedChars`), a full
first draw (`fullDraw`), and `Update`/`WriteLine`/`Clear`/`Close`.

Device I/O (`dev.Draw`) is modelled by an oracle `orc : Nat → Bool` giving
the result of each successive write attempt, and by a log of successful
write events (`WriteEv`).  Strings are `List Char` (the Go code indexes
bytes of ASCII strings).
-/

namespace OledInfo

/-- `maxChars` constant of display.go: 16 characters per line. -/
abbrev maxChars : Nat := 16

/-- `maxLines` constant of display.go: 4 lines. -/
abbrev maxLines : Nat := 4

/-- A successful device write: either a full-frame push (`dev.Draw` of the
whole image in `fullDraw` or in the uninitialised branch of `Clear`),
carrying the logical frame content, or a single 8x16 character-cell push
(`dev.Draw(charRect, ...)` in `redrawChangedChars`). -/
inductive WriteEv where
  | full (frame : Fin maxLines → List Char)
  | cell (i : Fin maxLines) (j : Fin maxChars)

/-- Errors `Update` can return: the `display not initialized` error
(`d.dev == nil`), or a device transfer failure propagated from `dev.Draw`. -/
inductive DispErr where
  | notReady
  | transfer
deriving DecidableEq

/-- The `Display` struct of display.go.  `devPresent` models `d.dev != nil`,
`halted` models that `dev.Halt()` has been called by `Close`, `inited`
models the `initialized` field.  The pixel image buffer `img` is not part of
the observable state (its content is a function of `lines` pushed via the
events). -/
structure Display where
  lines : Fin maxLines → List Char
  prevLines : Fin maxLines → List Char
  charPositions : Fin maxLines → Fin maxChars → Bool
  devPresent : Bool
  halted : Bool
  inited : Bool

/-- The display returned by `New()` on success: zero-valued lines,
snapshot and dirty flags, open device, not yet initialised. -/
def newDisplay : Display :=
  { lines := fun _ => []
    prevLines := fun _ => []
    charPositions := fun _ _ => false
    devPresent := true
    halted := false
    inited := false }

/-- The effective (space-padded) character of a line at column `j`:
`line[j]` if `j < len(line)`, else a blank. -/
def effChar (l : List Char) (j : Nat) : Char := l.getD j ' '

/-- Whether the effective characters of two lines differ at column `j`
(the `prevChar != newChar` comparison of `WriteLine`). -/
def diffAt (a b : List Char) (j : Nat) : Bool := effChar a j != effChar b j

/-- Body of `WriteLine` once the line index has been validated:
truncate to `maxChars`, and if the content changed, overwrite line `li`'s
dirty flags with the pointwise diff of old versus new content and store the
new content. -/
def writeLineAux (d : Display) (li : Fin maxLines) (content : List Char) : Display :=
  if content.take maxChars = d.lines li then d
  else
    { d with
      lines := fun k => if k = li then content.take maxChars else d.lines k
      charPositions := fun k j =>
        if k = li then diffAt (d.lines li) (content.take maxChars) (j : Nat)
        else d.charPositions k j }

/-- `WriteLine(line, content)` of display.go: silently ignores an
out-of-range line index, otherwise runs `writeLineAux`. -/
def writeLine (d : Display) (line : Int) (content : List Char) : Display :=
  if h : 0 ≤ line ∧ line < (maxLines : Int) then
    writeLineAux d ⟨line.toNat, by omega⟩ content
  else d

lemma writeLine_coe (d : Display) (i : Fin maxLines) (c : List Char) :
    writeLine d ((i : Nat) : Int) c = writeLineAux d i c := by
  have h : (0 : Int) ≤ ((i : Nat) : Int) ∧ ((i : Nat) : Int) < (maxLines : Int) := by
    have := i.isLt
    omega
  rw [writeLine, dif_pos h]
  rfl

lemma writeLine_out_of_range (d : Display) (line : Int) (c : List Char)
    (h : line < 0 ∨ (maxLines : Int) ≤ line) :
    writeLine d line c = d := by
  rw [writeLine, dif_neg]
  omega

/-- Line `i` of the display is untouched by `writeLineAux` on another line. -/
lemma writeLineAux_frame (d : Display) (li : Fin maxLines) (c : List Char)
    (i : Fin maxLines) (h : i ≠ li) :
    (writeLineAux d li c).lines i = d.lines i ∧
      ∀ j, (writeLineAux d li c).charPositions i j = d.charPositions i j := by
  rw [writeLineAux]
  split
  · exact ⟨rfl, fun _ => rfl⟩
  · constructor
    · simp [h]
    · intro j
      simp [h]

/-- Line `i` of the display is untouched by `writeLine` on any other line
index (valid or not). -/
lemma writeLine_frame (d : Display) (line : Int) (c : List Char) (i : Fin maxLines)
    (h : line ≠ ((i : Nat) : Int)) :
    (writeLine d line c).lines i = d.lines i ∧
      ∀ j, (writeLine d line c).charPositions i j = d.charPositions i j := by
  rw [writeLine]
  split
  · rename_i hr
    apply writeLineAux_frame
    apply Fin.ne_of_val_ne
    intro he
    apply h
    simp only [Fin.val] at he
    omega
  · exact ⟨rfl, fun _ => rfl⟩

/-- Claim C8: `WriteLine` with a line index outside `0..3` (for example `-1`
or `4`) leaves the entire display state unchanged and raises no error. -/
theorem writeLine_out_of_range_noop (d : Display) (line : Int) (content : List Char)
    (h : line < 0 ∨ (maxLines : Int) ≤ line) :
    writeLine d line content = d :=
  writeLine_out_of_range d line content h

/-- Witness for C8 at the concrete indices `-1` and `4` of the spec. -/
theorem writeLine_out_of_range_noop_witness :
    writeLine newDisplay (-1) ['x'] = newDisplay ∧
      writeLine newDisplay 4 ['x'] = newDisplay :=
  ⟨writeLine_out_of_range_noop newDisplay (-1) ['x'] (by decide),
   writeLine_out_of_range_noop newDisplay 4 ['x'] (by decide)⟩

/-- Claim C9: for a valid line index and content longer than 16 characters,
the stored content of that line is exactly the first 16 characters; its
length is 16 and no other line is touched (content is truncated, never
wrapped). -/
theorem writeLine_truncates (d : Display) (i : Fin maxLines) (s : List Char)
    (h : maxChars < s.length) :
    (writeLine d ((i : Nat) : Int) s).lines i = s.take maxChars ∧
      ((writeLine d ((i : Nat) : Int) s).lines i).length = maxChars ∧
      ∀ k, k ≠ i → (writeLine d ((i : Nat) : Int) s).lines k = d.lines k := by
  rw [writeLine_coe]
  have hstore : (writeLineAux d i s).lines i = s.take maxChars := by
    rw [writeLineAux]
    split
    · rename_i he
      exact he.symm
    · simp
  refine ⟨hstore, ?_, ?_⟩
  · rw [hstore]
    simp
    omega
  · intro k hk
    rw [writeLineAux]
    split
    · rfl
    · simp [hk]

/-- Witness for C9: writing a 17-character string to line 0 stores its
first 16 characters. -/
theorem writeLine_truncates_witness :
    maxChars <
        (['a','b','c','d','e','f','g','h','i','j','k','l','m','n','o','p','q'] :
          List Char).length ∧
      (writeLine newDisplay (((0 : Fin maxLines) : Nat) : Int)
          ['a','b','c','d','e','f','g','h','i','j','k','l','m','n','o','p','q']).lines 0 =
        ['a','b','c','d','e','f','g','h','i','j','k','l','m','n','o','p'] :=
  ⟨by decide,
   (writeLine_truncates newDisplay 0
      ['a','b','c','d','e','f','g','h','i','j','k','l','m','n','o','p','q']
      (by decide)).1.trans (by decide)⟩

/-- Claim C10: `WriteLine` on a valid line index touches at most that
line's content and dirty flags: the snapshot, the initialised flag, the
device fields and every other line's content and flags are unchanged; and
when the truncated content equals the stored content, the call changes no
state at all (existing dirty flags are preserved, not recomputed). -/
theorem writeLine_local (d : Display) (i : Fin maxLines) (s : List Char) :
    (writeLine d ((i : Nat) : Int) s).prevLines = d.prevLines ∧
      (writeLine d ((i : Nat) : Int) s).inited = d.inited ∧
      (writeLine d ((i : Nat) : Int) s).devPresent = d.devPresent ∧
      (writeLine d ((i : Nat) : Int) s).halted = d.halted ∧
      (∀ k, k ≠ i →
        (writeLine d ((i : Nat) : Int) s).lines k = d.lines k ∧
          ∀ j, (writeLine d ((i : Nat) : Int) s).charPositions k j =
            d.charPositions k j) ∧
      (s.take maxChars = d.lines i → writeLine d ((i : Nat) : Int) s = d) := by
  rw [writeLine_coe, writeLineAux]
  split
  · exact ⟨rfl, rfl, rfl, rfl, fun _ _ => ⟨rfl, fun _ => rfl⟩, fun _ => rfl⟩
  · rename_i hne
    refine ⟨rfl, rfl, rfl, rfl, ?_, ?_⟩
    · intro k hk
      exact ⟨by simp [hk], fun j => by simp [hk]⟩
    · intro he
      exact absurd he hne

/-- Witness for C10: an unchanged write is a no-op, and a changing write
leaves the snapshot untouched. -/
theorem writeLine_local_witness :
    writeLine newDisplay (((0 : Fin maxLines) : Nat) : Int) [] = newDisplay ∧
      (writeLine newDisplay (((1 : Fin maxLines) : Nat) : Int) ['A']).lines 0 =
        newDisplay.lines 0 :=
  ⟨(writeLine_local newDisplay 0 []).2.2.2.2.2 (by decide),
   ((writeLine_local newDisplay 1 ['A']).2.2.2.2.1 0 (by decide)).1⟩

/-- Claim C4 (amended: requires `A ≠ B`): from a fresh display, after
`WriteLine(i, A)` then `WriteLine(i, B)` with `A ≠ B` of length at most 16,
the dirty columns of line `i` are exactly the columns where the effective
characters of `A` and `B` differ. -/
theorem writeLine_twice_dirty_diff (i : Fin maxLines) (A B : List Char)
    (hA : A.length ≤ maxChars) (hB : B.length ≤ maxChars) (hAB : A ≠ B) :
    ∀ j : Fin maxChars,
      (writeLine (writeLine newDisplay ((i : Nat) : Int) A)
          ((i : Nat) : Int) B).charPositions i j = diffAt A B (j : Nat) := by
  intro j
  rw [writeLine_coe, writeLine_coe]
  have hAt : A.take maxChars = A := List.take_of_length_le hA
  have hBt : B.take maxChars = B := List.take_of_length_le hB
  by_cases hA0 : A = []
  · subst hA0
    have h1 : writeLineAux newDisplay i [] = newDisplay := by
      rw [writeLineAux]
      split
      · rfl
      · rename_i hne
        exact absurd rfl hne
    have hcond : ¬ (B.take maxChars = newDisplay.lines i) := by
      rw [hBt]
      intro hc
      have hB0 : B = [] := by simpa [newDisplay] using hc
      exact hAB hB0.symm
    rw [h1, writeLineAux, if_neg hcond]
    simp [hBt, newDisplay, diffAt, effChar]
  · have hl1 : (writeLineAux newDisplay i A).lines i = A := by
      rw [writeLineAux]
      split
      · rename_i he
        rw [hAt] at he
        exact absurd (by simpa [newDisplay] using he) hA0
      · simp [hAt]
    have hcond2 : ¬ (B.take maxChars = (writeLineAux newDisplay i A).lines i) := by
      rw [hBt, hl1]
      exact fun hc => hAB hc.symm
    rw [writeLineAux, if_neg hcond2]
    simp [hl1, hBt]

/-- Witness for C4 at `i = 0`, `A = "A"`, `B = "B"`. -/
theorem writeLine_twice_dirty_diff_witness :
    (['A'] : List Char).length ≤ maxChars ∧ (['B'] : List Char).length ≤ maxChars ∧
      (['A'] : List Char) ≠ ['B'] ∧
      ∀ j : Fin maxChars,
        (writeLine (writeLine newDisplay (((0 : Fin maxLines) : Nat) : Int) ['A'])
            (((0 : Fin maxLines) : Nat) : Int) ['B']).charPositions 0 j =
          diffAt ['A'] ['B'] (j : Nat) :=
  ⟨by decide, by decide, by decide,
   writeLine_twice_dirty_diff 0 ['A'] ['B'] (by decide) (by decide) (by decide)⟩

/-- Counterexample to claim C4 as stated: with `A = B = "X"`, the second
`WriteLine` is a no-op that preserves the first call's dirty flag at
column 0, yet `A` and `B` differ nowhere, so the dirty set does not equal
the difference set. -/
theorem writeLine_twice_dirty_diff_counterexample :
    (writeLine (writeLine newDisplay (((0 : Fin maxLines) : Nat) : Int) ['X'])
        (((0 : Fin maxLines) : Nat) : Int) ['X']).charPositions 0 0 = true ∧
      diffAt ['X'] ['X'] 0 = false := by
  decide

/-- One step of the spec-side scan for a single line: fold one `WriteLine`
content into the pair (current content, content just before the most recent
change), keeping the pair unchanged when the truncated content equals the
current one. -/
def scanStep (p : List Char × Option (List Char)) (c : List Char) :
    List Char × Option (List Char) :=
  if c.take maxChars = p.1 then p else (c.take maxChars, some p.1)

/-- Fold `scanStep` over a sequence of contents written to one line. -/
def lineScan (p : List Char × Option (List Char)) (ops : List (List Char)) :
    List Char × Option (List Char) :=
  ops.foldl scanStep p

/-- The dirty flag predicted from a scan pair: all clear if the line never
changed, else the pointwise diff across the most recent change. -/
def flagOfScan (p : List Char × Option (List Char)) (j : Nat) : Bool :=
  match p.2 with
  | none => false
  | some b => diffAt b p.1 j

/-- Apply a sequence of `WriteLine` calls. -/
def applyWrites (d : Display) (ops : List (Int × List Char)) : Display :=
  ops.foldl (fun e q => writeLine e q.1 q.2) d

/-- The subsequence of contents a call sequence writes to line `i`. -/
def opsFor (i : Fin maxLines) (ops : List (Int × List Char)) : List (List Char) :=
  ops.filterMap fun q => if q.1 = ((i : Nat) : Int) then some q.2 else none

lemma applyWrites_scan (i : Fin maxLines) :
    ∀ (ops : List (Int × List Char)) (d : Display) (p : List Char × Option (List Char)),
      d.lines i = p.1 →
      (∀ j : Fin maxChars, d.charPositions i j = flagOfScan p (j : Nat)) →
      (applyWrites d ops).lines i = (lineScan p (opsFor i ops)).1 ∧
        ∀ j : Fin maxChars,
          (applyWrites d ops).charPositions i j =
            flagOfScan (lineScan p (opsFor i ops)) (j : Nat) := by
  intro ops
  induction ops with
  | nil => exact fun d p h1 h2 => ⟨h1, h2⟩
  | cons q rest ih =>
    intro d p h1 h2
    by_cases hq : q.1 = ((i : Nat) : Int)
    · have hops : opsFor i (q :: rest) = q.2 :: opsFor i rest := by
        simp [opsFor, hq]
      have hw : writeLine d q.1 q.2 = writeLineAux d i q.2 := by
        rw [hq, writeLine_coe]
      have hstep : applyWrites d (q :: rest) = applyWrites (writeLineAux d i q.2) rest := by
        rw [applyWrites, List.foldl_cons, hw]
        rfl
      have hcons : lineScan p (q.2 :: opsFor i rest) =
          lineScan (scanStep p q.2) (opsFor i rest) := rfl
      rw [hstep, hops, hcons]
      by_cases hc : q.2.take maxChars = d.lines i
      · have haux : writeLineAux d i q.2 = d := by
          rw [writeLineAux, if_pos hc]
        have hscan : scanStep p q.2 = p := by
          rw [scanStep, if_pos (hc.trans h1)]
        rw [haux, hscan]
        exact ih d p h1 h2
      · have hscan : scanStep p q.2 = (q.2.take maxChars, some p.1) := by
          rw [scanStep, if_neg (fun he => hc (he.trans h1.symm))]
        rw [hscan]
        apply ih
        · rw [writeLineAux, if_neg hc]
          simp
        · intro j
          rw [writeLineAux, if_neg hc]
          simp [flagOfScan, h1]
    · have hops : opsFor i (q :: rest) = opsFor i rest := by
        simp [opsFor, hq]
      have hstep : applyWrites d (q :: rest) = applyWrites (writeLine d q.1 q.2) rest := by
        rw [applyWrites, List.foldl_cons]
        rfl
      rw [hstep, hops]
      have hfr := writeLine_frame d q.1 q.2 i hq
      exact ih (writeLine d q.1 q.2) p (hfr.1.trans h1)
        (fun j => (hfr.2 j).trans (h2 j))

/-- Claim C1 (amended): after any sequence of `WriteLine` calls following a
state whose line-`i` dirty flags are all clear (as after a successful
redraw pass), line `i`'s dirty flags equal the pointwise effective-character
diff across the most recent content-changing `WriteLine` to line `i` (all
clear if no call changed it) — the flags record the last change, not the
difference against the previously rendered snapshot. -/
theorem writeLine_seq_flags_last_writer (ops : List (Int × List Char))
    (d0 : Display) (i : Fin maxLines)
    (h0 : ∀ j : Fin maxChars, d0.charPositions i j = false) :
    (applyWrites d0 ops).lines i = (lineScan (d0.lines i, none) (opsFor i ops)).1 ∧
      ∀ j : Fin maxChars,
        (applyWrites d0 ops).charPositions i j =
          flagOfScan (lineScan (d0.lines i, none) (opsFor i ops)) (j : Nat) :=
  applyWrites_scan i ops d0 (d0.lines i, none) rfl (fun j => h0 j)

/-- Witness for C1 (amended) on the sequence writing `"AB"` then `"AC"` to
line 0 of a fresh display. -/
theorem writeLine_seq_flags_last_writer_witness :
    (∀ j : Fin maxChars, newDisplay.charPositions 0 j = false) ∧
      ((applyWrites newDisplay [((0 : Int), ['A','B']), ((0 : Int), ['A','C'])]).lines 0 =
          (lineScan (newDisplay.lines 0, none)
            (opsFor 0 [((0 : Int), ['A','B']), ((0 : Int), ['A','C'])])).1 ∧
        ∀ j : Fin maxChars,
          (applyWrites newDisplay
                [((0 : Int), ['A','B']), ((0 : Int), ['A','C'])]).charPositions 0 j =
            flagOfScan
              (lineScan (newDisplay.lines 0, none)
                (opsFor 0 [((0 : Int), ['A','B']), ((0 : Int), ['A','C'])])) (j : Nat)) :=
  ⟨by decide,
   writeLine_seq_flags_last_writer [((0 : Int), ['A','B']), ((0 : Int), ['A','C'])]
     newDisplay 0 (by decide)⟩

/-- The character cells in the scan order of `redrawChangedChars`:
line-major, column-minor. -/
def cells : List (Fin maxLines × Fin maxChars) :=
  (List.finRange maxLines).flatMap fun i =>
    (List.finRange maxChars).map fun j => (i, j)

/-- `strings.TrimSpace` on ASCII content: drop leading and trailing
whitespace. -/
def trimSpace (l : List Char) : List Char :=
  ((l.dropWhile Char.isWhitespace).reverse.dropWhile Char.isWhitespace).reverse

/-- The logical frame pushed by `fullDraw`: every line is rasterised from
its trimmed content (an empty line is skipped, leaving it blank). -/
def renderFrame (ls : Fin maxLines → List Char) : Fin maxLines → List Char :=
  fun i => trimSpace (ls i)

/-- Result of a `redrawChangedChars` pass: the mutated display, the log of
successful per-cell device writes, and whether a write attempt failed. -/
structure RedrawOut where
  disp : Display
  evs : List WriteEv
  failed : Bool

/-- Clear one cell's dirty flag (`d.charPositions[lineIdx][charIdx] = false`
after a successful per-cell push). -/
def dClear (d : Display) (c : Fin maxLines × Fin maxChars) : Display :=
  { d with
    charPositions := fun a b =>
      if a = c.1 ∧ b = c.2 then false else d.charPositions a b }

lemma dClear_flags (d : Display) (c : Fin maxLines × Fin maxChars)
    (a : Fin maxLines) (b : Fin maxChars) :
    (dClear d c).charPositions a b =
      if a = c.1 ∧ b = c.2 then false else d.charPositions a b := rfl

/-- The loop of `redrawChangedChars` over the remaining cells `cs`, with
`k` write attempts already made against the oracle `orc`: a dirty cell is
drawn into the buffer and pushed (`dev.Draw(charRect, ...)`); on failure the
error is returned immediately, with the failing cell's flag still set; on
success the flag is cleared.  After the loop the current lines are
snapshotted into `prevLines`. -/
def redrawGo (orc : Nat → Bool) :
    List (Fin maxLines × Fin maxChars) → Display → Nat → RedrawOut
  | [], d, _ => ⟨{ d with prevLines := d.lines }, [], false⟩
  | c :: rest, d, k =>
    if d.charPositions c.1 c.2 then
      if orc k then
        let r := redrawGo orc rest (dClear d c) (k + 1)
        ⟨r.disp, WriteEv.cell c.1 c.2 :: r.evs, r.failed⟩
      else ⟨d, [], true⟩
    else redrawGo orc rest d k

/-- `redrawChangedChars` of display.go. -/
def redrawChangedChars (orc : Nat → Bool) (d : Display) : RedrawOut :=
  redrawGo orc cells d 0

/-- Result of `Update`: the mutated display, the write log, and the
returned error, if any. -/
structure UpdOut where
  disp : Display
  evs : List WriteEv
  err : Option DispErr

/-- The dirty-flag scan of `Update` (`needsUpdate`). -/
def anyDirty (d : Display) : Bool :=
  cells.any fun c => d.charPositions c.1 c.2

/-- `Update()` of display.go: fail with the `display not initialized` error
when the device handle is nil; on the first (uninitialised) call do a full
draw, and on success set `initialized` and snapshot the lines; otherwise
return immediately when no flag is set, else run the sparse redraw. -/
def update (orc : Nat → Bool) (d : Display) : UpdOut :=
  if d.devPresent = false then ⟨d, [], some DispErr.notReady⟩
  else if d.inited = false then
    if orc 0 then
      ⟨{ d with inited := true, prevLines := d.lines },
        [WriteEv.full (renderFrame d.lines)], none⟩
    else ⟨d, [], some DispErr.transfer⟩
  else if anyDirty d = false then ⟨d, [], none⟩
  else
    let r := redrawChangedChars orc d
    ⟨r.disp, r.evs, if r.failed then some DispErr.transfer else none⟩

/-- The content-level part of `Clear()`: reset every line to empty and mark
all 16 flags of each previously non-empty line (flags of already-empty
lines are untouched). -/
def clearMark (d : Display) : Display :=
  { d with
    lines := fun _ => []
    charPositions := fun k j =>
      if d.lines k = [] then d.charPositions k j else true }

/-- `Clear()` of display.go: after the content-level reset it immediately
redraws — a sparse redraw when initialised (its error is discarded), else a
single full black-frame push (its error is also discarded). -/
def clear (orc : Nat → Bool) (d : Display) : Display × List WriteEv :=
  let d1 := clearMark d
  if d1.inited then
    let r := redrawChangedChars orc d1
    (r.disp, r.evs)
  else
    (d1, if orc 0 then [WriteEv.full fun _ => []] else [])

/-- `Close()` of display.go: halts the device and closes the bus but does
not clear the `dev` handle, so all logical state, including `devPresent`,
survives. -/
def close (d : Display) : Display :=
  if d.devPresent then { d with halted := true } else d

lemma mem_cells (c : Fin maxLines × Fin maxChars) : c ∈ cells := by
  rw [cells]
  rcases c with ⟨i, j⟩
  refine List.mem_flatMap.mpr ⟨i, List.mem_finRange i, ?_⟩
  exact List.mem_map.mpr ⟨j, List.mem_finRange j, rfl⟩

lemma cells_nodup : cells.Nodup := by decide

/-- Structural facts about a redraw pass for an arbitrary oracle: lines and
mode fields are untouched, every logged event is a per-cell write, dirty
flags are only ever cleared, and a pass that did not fail has cleared every
flag of the scanned cells and snapshotted the lines. -/
lemma redrawGo_inv (orc : Nat → Bool) :
    ∀ (cs : List (Fin maxLines × Fin maxChars)) (d : Display) (k : Nat),
      (redrawGo orc cs d k).disp.lines = d.lines ∧
      (redrawGo orc cs d k).disp.inited = d.inited ∧
      (redrawGo orc cs d k).disp.devPresent = d.devPresent ∧
      (redrawGo orc cs d k).disp.halted = d.halted ∧
      (∀ ev ∈ (redrawGo orc cs d k).evs, ∃ i j, ev = WriteEv.cell i j) ∧
      (∀ a b, (redrawGo orc cs d k).disp.charPositions a b = true →
        d.charPositions a b = true) ∧
      ((redrawGo orc cs d k).failed = false →
        (∀ c ∈ cs, (redrawGo orc cs d k).disp.charPositions c.1 c.2 = false) ∧
          (redrawGo orc cs d k).disp.prevLines = d.lines) := by
  intro cs
  induction cs with
  | nil =>
    intro d k
    simp [redrawGo]
  | cons c rest ih =>
    intro d k
    cases hc : d.charPositions c.1 c.2 with
    | true =>
      cases ho : orc k with
      | true =>
        have hdisp : (redrawGo orc (c :: rest) d k).disp =
            (redrawGo orc rest (dClear d c) (k + 1)).disp := by
          simp [redrawGo, hc, ho]
        have hevs : (redrawGo orc (c :: rest) d k).evs =
            WriteEv.cell c.1 c.2 :: (redrawGo orc rest (dClear d c) (k + 1)).evs := by
          simp [redrawGo, hc, ho]
        have hfail : (redrawGo orc (c :: rest) d k).failed =
            (redrawGo orc rest (dClear d c) (k + 1)).failed := by
          simp [redrawGo, hc, ho]
        obtain ⟨ihl, ihi, ihdev, ihh, ihev, ihmono, ihok⟩ := ih (dClear d c) (k + 1)
        rw [hdisp, hevs, hfail]
        refine ⟨ihl, ihi, ihdev, ihh, ?_, ?_, ?_⟩
        · intro ev hev
          rcases List.mem_cons.mp hev with h | h
          · exact ⟨c.1, c.2, h⟩
          · exact ihev ev h
        · intro a b h
          have h2 := ihmono a b h
          rw [dClear_flags] at h2
          by_cases hab : a = c.1 ∧ b = c.2
          · rw [if_pos hab] at h2
            cases h2
          · rwa [if_neg hab] at h2
        · intro hf
          obtain ⟨hflags, hprev⟩ := ihok hf
          refine ⟨?_, hprev⟩
          intro x hx
          rcases List.mem_cons.mp hx with h | h
          · subst h
            cases hb : (redrawGo orc rest (dClear d x) (k + 1)).disp.charPositions x.1 x.2 with
            | false => rfl
            | true =>
              have h3 := ihmono x.1 x.2 hb
              rw [dClear_flags, if_pos ⟨rfl, rfl⟩] at h3
              cases h3
          · exact hflags x h
      | false =>
        have hdisp : (redrawGo orc (c :: rest) d k).disp = d := by
          simp [redrawGo, hc, ho]
        have hevs : (redrawGo orc (c :: rest) d k).evs = [] := by
          simp [redrawGo, hc, ho]
        have hfail : (redrawGo orc (c :: rest) d k).failed = true := by
          simp [redrawGo, hc, ho]
        rw [hdisp, hevs, hfail]
        refine ⟨rfl, rfl, rfl, rfl, ?_, fun a b h => h, ?_⟩
        · intro ev hev
          cases hev
        · intro hcontra
          cases hcontra
    | false =>
      have hred : redrawGo orc (c :: rest) d k = redrawGo orc rest d k := by
        simp [redrawGo, hc]
      obtain ⟨ihl, ihi, ihdev, ihh, ihev, ihmono, ihok⟩ := ih d k
      rw [hred]
      refine ⟨ihl, ihi, ihdev, ihh, ihev, ihmono, ?_⟩
      intro hf
      obtain ⟨hflags, hprev⟩ := ihok hf
      refine ⟨?_, hprev⟩
      intro x hx
      rcases List.mem_cons.mp hx with h | h
      · subst h
        cases hb : (redrawGo orc rest d k).disp.charPositions x.1 x.2 with
        | false => rfl
        | true =>
          have h3 := ihmono x.1 x.2 hb
          rw [hc] at h3
          cases h3
      · exact hflags x h

/-- A redraw pass in which every device write succeeds: no failure, the
events are exactly the dirty cells among `cs` in scan order, and the flags
of all cells in `cs` end up cleared. -/
lemma redrawGo_ok (orc : Nat → Bool) (ho : ∀ n, orc n = true) :
    ∀ (cs : List (Fin maxLines × Fin maxChars)), cs.Nodup →
      ∀ (d : Display) (k : Nat),
      (redrawGo orc cs d k).failed = false ∧
      (redrawGo orc cs d k).evs =
        (cs.filter fun x => d.charPositions x.1 x.2).map
          (fun x => WriteEv.cell x.1 x.2) ∧
      ∀ a b, (redrawGo orc cs d k).disp.charPositions a b =
        (d.charPositions a b && !(decide ((a, b) ∈ cs))) := by
  intro cs
  induction cs with
  | nil =>
    intro _ d k
    simp [redrawGo]
  | cons c rest ih =>
    intro hnd d k
    rcases List.nodup_cons.mp hnd with ⟨hcm, hnr⟩
    cases hc : d.charPositions c.1 c.2 with
    | true =>
      have hdisp : (redrawGo orc (c :: rest) d k).disp =
          (redrawGo orc rest (dClear d c) (k + 1)).disp := by
        simp [redrawGo, hc, ho k]
      have hevs : (redrawGo orc (c :: rest) d k).evs =
          WriteEv.cell c.1 c.2 :: (redrawGo orc rest (dClear d c) (k + 1)).evs := by
        simp [redrawGo, hc, ho k]
      have hfail : (redrawGo orc (c :: rest) d k).failed =
          (redrawGo orc rest (dClear d c) (k + 1)).failed := by
        simp [redrawGo, hc, ho k]
      obtain ⟨ihf, ihe, ihflag⟩ := ih hnr (dClear d c) (k + 1)
      have hfc : (rest.filter fun x => (dClear d c).charPositions x.1 x.2) =
          rest.filter fun x => d.charPositions x.1 x.2 := by
        apply List.filter_congr
        intro x hx
        rw [dClear_flags, if_neg]
        intro hab
        apply hcm
        have hxc : x = c := Prod.ext hab.1 hab.2
        rwa [← hxc]
      refine ⟨by rw [hfail]; exact ihf, ?_, ?_⟩
      · rw [hevs, ihe, hfc]
        simp [List.filter_cons, hc]
      · intro a b
        rw [hdisp, ihflag a b, dClear_flags]
        by_cases hab : a = c.1 ∧ b = c.2
        · rw [if_pos hab]
          have hx : (a, b) = c := Prod.ext hab.1 hab.2
          simp [hx]
        · rw [if_neg hab]
          have hx : (a, b) ≠ c := fun he => hab ⟨congrArg Prod.fst he, congrArg Prod.snd he⟩
          have hmem : ((a, b) ∈ c :: rest) ↔ ((a, b) ∈ rest) := by
            constructor
            · intro h
              rcases List.mem_cons.mp h with h | h
              · exact absurd h hx
              · exact h
            · exact fun h => List.mem_cons_of_mem _ h
          simp [hmem]
    | false =>
      have hred : redrawGo orc (c :: rest) d k = redrawGo orc rest d k := by
        simp [redrawGo, hc]
      obtain ⟨ihf, ihe, ihflag⟩ := ih hnr d k
      rw [hred]
      refine ⟨ihf, ?_, ?_⟩
      · rw [ihe]
        simp [List.filter_cons, hc]
      · intro a b
        rw [ihflag a b]
        by_cases hx : (a, b) = c
        · have hab : d.charPositions a b = false := by
            rw [show a = c.1 from congrArg Prod.fst hx,
              show b = c.2 from congrArg Prod.snd hx, hc]
          simp [hab]
        · have hmem : ((a, b) ∈ c :: rest) ↔ ((a, b) ∈ rest) := by
            constructor
            · intro h
              rcases List.mem_cons.mp h with h | h
              · exact absurd h hx
              · exact h
            · exact fun h => List.mem_cons_of_mem _ h
          simp [hmem]

/-- A redraw pass whose `K`-th write attempt (counting from `k`) fails,
with all earlier attempts succeeding: the pass reports failure, logs
exactly the first `K` dirty cells, leaves `prevLines` untouched, and clears
exactly the flags of those first `K` dirty cells. -/
lemma redrawGo_fail (orc : Nat → Bool) :
    ∀ (cs : List (Fin maxLines × Fin maxChars)), cs.Nodup →
      ∀ (d : Display) (k K : Nat),
      (∀ m, m < K → orc (k + m) = true) → orc (k + K) = false →
      K < (cs.filter fun x => d.charPositions x.1 x.2).length →
      (redrawGo orc cs d k).failed = true ∧
      (redrawGo orc cs d k).evs =
        ((cs.filter fun x => d.charPositions x.1 x.2).take K).map
          (fun x => WriteEv.cell x.1 x.2) ∧
      (redrawGo orc cs d k).disp.prevLines = d.prevLines ∧
      ∀ a b, (redrawGo orc cs d k).disp.charPositions a b =
        (d.charPositions a b &&
          !(decide ((a, b) ∈ (cs.filter fun x => d.charPositions x.1 x.2).take K))) := by
  intro cs
  induction cs with
  | nil =>
    intro _ d k K _ _ hlen
    simp at hlen
  | cons c rest ih =>
    intro hnd d k K hsucc hfail hlen
    rcases List.nodup_cons.mp hnd with ⟨hcm, hnr⟩
    cases hc : d.charPositions c.1 c.2 with
    | false =>
      have hred : redrawGo orc (c :: rest) d k = redrawGo orc rest d k := by
        simp [redrawGo, hc]
      have hfilter : ((c :: rest).filter fun x => d.charPositions x.1 x.2) =
          rest.filter fun x => d.charPositions x.1 x.2 := by
        simp [List.filter_cons, hc]
      rw [hred, hfilter]
      rw [hfilter] at hlen
      exact ih hnr d k K hsucc hfail hlen
    | true =>
      have hfilter : ((c :: rest).filter fun x => d.charPositions x.1 x.2) =
          c :: (rest.filter fun x => d.charPositions x.1 x.2) := by
        simp [List.filter_cons, hc]
      rw [hfilter]
      rw [hfilter] at hlen
      cases K with
      | zero =>
        have ho : orc k = false := by
          have := hfail
          rwa [Nat.add_zero] at this
        have hdisp : (redrawGo orc (c :: rest) d k).disp = d := by
          simp [redrawGo, hc, ho]
        have hevs : (redrawGo orc (c :: rest) d k).evs = [] := by
          simp [redrawGo, hc, ho]
        have hfl : (redrawGo orc (c :: rest) d k).failed = true := by
          simp [redrawGo, hc, ho]
        rw [hdisp, hevs, hfl]
        refine ⟨rfl, by simp, rfl, ?_⟩
        intro a b
        simp
      | succ K' =>
        have ho : orc k = true := by
          have := hsucc 0 (Nat.succ_pos K')
          rwa [Nat.add_zero] at this
        have hdisp : (redrawGo orc (c :: rest) d k).disp =
            (redrawGo orc rest (dClear d c) (k + 1)).disp := by
          simp [redrawGo, hc, ho]
        have hevs : (redrawGo orc (c :: rest) d k).evs =
            WriteEv.cell c.1 c.2 :: (redrawGo orc rest (dClear d c) (k + 1)).evs := by
          simp [redrawGo, hc, ho]
        have hfl : (redrawGo orc (c :: rest) d k).failed =
            (redrawGo orc rest (dClear d c) (k + 1)).failed := by
          simp [redrawGo, hc, ho]
        have hfc : (rest.filter fun x => (dClear d c).charPositions x.1 x.2) =
            rest.filter fun x => d.charPositions x.1 x.2 := by
          apply List.filter_congr
          intro x hx
          rw [dClear_flags, if_neg]
          intro hab
          apply hcm
          have hxc : x = c := Prod.ext hab.1 hab.2
          rwa [← hxc]
        have hsucc' : ∀ m, m < K' → orc (k + 1 + m) = true := by
          intro m hm
          rw [show k + 1 + m = k + (m + 1) by omega]
          exact hsucc (m + 1) (by omega)
        have hfail' : orc (k + 1 + K') = false := by
          rw [show k + 1 + K' = k + (K' + 1) by omega]
          exact hfail
        have hlen' : K' < (rest.filter fun x => (dClear d c).charPositions x.1 x.2).length := by
          rw [hfc]
          simpa using Nat.lt_of_succ_lt_succ (by simpa using hlen)
        obtain ⟨ihf, ihe, ihp, ihflag⟩ := ih hnr (dClear d c) (k + 1) K' hsucc' hfail' hlen'
        rw [hfc] at ihe ihflag
        refine ⟨by rw [hfl]; exact ihf, ?_, ?_, ?_⟩
        · rw [hevs, ihe, List.take_succ_cons, List.map_cons]
        · rw [hdisp, ihp]
          rfl
        · intro a b
          rw [hdisp, ihflag a b, dClear_flags, List.take_succ_cons]
          by_cases hab : a = c.1 ∧ b = c.2
          · rw [if_pos hab]
            have hx : (a, b) = c := Prod.ext hab.1 hab.2
            simp [hx]
          · rw [if_neg hab]
            have hx : (a, b) ≠ c := fun he => hab ⟨congrArg Prod.fst he, congrArg Prod.snd he⟩
            have hmem : ((a, b) ∈
                c :: ((rest.filter fun x => d.charPositions x.1 x.2).take K')) ↔
                ((a, b) ∈ (rest.filter fun x => d.charPositions x.1 x.2).take K') := by
              constructor
              · intro h
                rcases List.mem_cons.mp h with h | h
                · exact absurd h hx
                · exact h
              · exact fun h => List.mem_cons_of_mem _ h
            simp [hmem]

/-- Removing the first `K` elements of a duplicate-free list by membership
filtering is the same as dropping them. -/
lemma filter_not_mem_take :
    ∀ (l : List (Fin maxLines × Fin maxChars)) (K : Nat), l.Nodup →
      (l.filter fun x => !(decide (x ∈ l.take K))) = l.drop K := by
  intro l
  induction l with
  | nil => intro K _; simp
  | cons a t ih =>
    intro K hnd
    rcases List.nodup_cons.mp hnd with ⟨ham, hnt⟩
    cases K with
    | zero => simp
    | succ K' =>
      rw [List.take_succ_cons, List.drop_succ_cons]
      have hstep : ((a :: t).filter fun x => !(decide (x ∈ a :: t.take K'))) =
          t.filter fun x => !(decide (x ∈ a :: t.take K')) := by
        rw [List.filter_cons]
        simp
      rw [hstep]
      have hcongr : (t.filter fun x => !(decide (x ∈ a :: t.take K'))) =
          t.filter fun x => !(decide (x ∈ t.take K')) := by
        apply List.filter_congr
        intro x hx
        have hne : (x ∈ a :: t.take K') ↔ (x ∈ t.take K') := by
          constructor
          · intro h
            rcases List.mem_cons.mp h with h | h
            · exact absurd hx (h ▸ ham)
            · exact h
          · exact fun h => List.mem_cons_of_mem _ h
        simp [hne]
      rw [hcongr]
      exact ih K' hnt

lemma anyDirty_false_iff (d : Display) :
    anyDirty d = false ↔ ∀ a b, d.charPositions a b = false := by
  rw [anyDirty]
  constructor
  · intro h a b
    cases hab : d.charPositions a b with
    | false => rfl
    | true =>
      have h2 : cells.any (fun c => d.charPositions c.1 c.2) = true :=
        List.any_eq_true.mpr ⟨(a, b), mem_cells _, hab⟩
      rw [h] at h2
      cases h2
  · intro h
    cases hd : cells.any (fun c => d.charPositions c.1 c.2) with
    | false => rfl
    | true =>
      obtain ⟨x, _, hpx⟩ := List.any_eq_true.mp hd
      have h2 := h x.1 x.2
      rw [h2] at hpx
      cases hpx

lemma update_noDev (d : Display) (orc : Nat → Bool) (h : d.devPresent = false) :
    update orc d = ⟨d, [], some DispErr.notReady⟩ := by
  simp [update, h]

lemma update_uninit_ok (d : Display) (orc : Nat → Bool)
    (hdev : d.devPresent = true) (hin : d.inited = false) (ho : orc 0 = true) :
    update orc d =
      ⟨{ d with inited := true, prevLines := d.lines },
        [WriteEv.full (renderFrame d.lines)], none⟩ := by
  simp [update, hdev, hin, ho]

lemma update_uninit_fail (d : Display) (orc : Nat → Bool)
    (hdev : d.devPresent = true) (hin : d.inited = false) (ho : orc 0 = false) :
    update orc d = ⟨d, [], some DispErr.transfer⟩ := by
  simp [update, hdev, hin, ho]

lemma update_clean (d : Display) (orc : Nat → Bool)
    (hdev : d.devPresent = true) (hin : d.inited = true) (hcl : anyDirty d = false) :
    update orc d = ⟨d, [], none⟩ := by
  simp [update, hdev, hin, hcl]

lemma update_dirty (d : Display) (orc : Nat → Bool)
    (hdev : d.devPresent = true) (hin : d.inited = true) (hcl : anyDirty d = true) :
    update orc d =
      ⟨(redrawChangedChars orc d).disp, (redrawChangedChars orc d).evs,
        if (redrawChangedChars orc d).failed then some DispErr.transfer else none⟩ := by
  simp [update, hdev, hin, hcl]

lemma clearMark_inited (d : Display) : (clearMark d).inited = d.inited := rfl

lemma clearMark_flags (d : Display) (a : Fin maxLines) (b : Fin maxChars) :
    (clearMark d).charPositions a b =
      if d.lines a = [] then d.charPositions a b else true := rfl

/-- Claim C7: on a freshly opened (uninitialised) display with an open
device, `Update()` performs a full-frame draw regardless of the dirty
flags — pushing the whole rendered frame in one transfer — and on success
sets `initialized` and snapshots the lines (on failure it changes
nothing, so the transition happens exactly on the first successful
update); once initialised, no `Update()` ever emits a full-frame write
again, and `WriteLine`/`Clear`/`Update` never reset `initialized`. -/
theorem update_first_full_draw (d : Display) (orc : Nat → Bool)
    (line : Int) (s : List Char) :
    (d.devPresent = true → d.inited = false →
      ((orc 0 = true →
          update orc d =
            ⟨{ d with inited := true, prevLines := d.lines },
              [WriteEv.full (renderFrame d.lines)], none⟩) ∧
        (orc 0 = false → update orc d = ⟨d, [], some DispErr.transfer⟩))) ∧
    (d.inited = true →
      ((∀ ev ∈ (update orc d).evs, ∀ f, ev ≠ WriteEv.full f) ∧
        (update orc d).disp.inited = true)) ∧
    (writeLine d line s).inited = d.inited ∧
    (clear orc d).1.inited = d.inited := by
  refine ⟨?_, ?_, ?_, ?_⟩
  · intro hdev hin
    exact ⟨fun ho => update_uninit_ok d orc hdev hin ho,
           fun ho => update_uninit_fail d orc hdev hin ho⟩
  · intro hin
    cases hdev : d.devPresent with
    | false =>
      rw [update_noDev d orc hdev]
      exact ⟨fun ev hev => absurd hev (List.not_mem_nil ev), hin⟩
    | true =>
      cases hcl : anyDirty d with
      | false =>
        rw [update_clean d orc hdev hin hcl]
        exact ⟨fun ev hev => absurd hev (List.not_mem_nil ev), hin⟩
      | true =>
        rw [update_dirty d orc hdev hin hcl]
        obtain ⟨_, hi, _, _, hev, _, _⟩ := redrawGo_inv orc cells d 0
        constructor
        · intro ev hevm f heq
          obtain ⟨i, j, hcell⟩ := hev ev hevm
          rw [hcell] at heq
          cases heq
        · show (redrawChangedChars orc d).disp.inited = true
          exact hi.trans hin
  · rw [writeLine]
    split
    · rw [writeLineAux]
      split <;> rfl
    · rfl
  · cases hin : d.inited with
    | true =>
      have hcl : clear orc d =
          ((redrawChangedChars orc (clearMark d)).disp,
            (redrawChangedChars orc (clearMark d)).evs) := by
        simp [clear, clearMark_inited, hin]
      rw [hcl]
      exact (((redrawGo_inv orc cells (clearMark d) 0).2.1).trans
        (clearMark_inited d)).trans hin
    | false =>
      have hcl : clear orc d =
          (clearMark d, if orc 0 then [WriteEv.full fun _ => []] else []) := by
        simp [clear, clearMark_inited, hin]
      rw [hcl]
      exact (clearMark_inited d).trans hin

/-- Witness for C7: the first update of a fresh display is the full draw. -/
theorem update_first_full_draw_witness :
    update (fun _ => true) newDisplay =
      ⟨{ newDisplay with inited := true, prevLines := newDisplay.lines },
        [WriteEv.full (renderFrame newDisplay.lines)], none⟩ :=
  ((update_first_full_draw newDisplay (fun _ => true) 0 []).1 rfl rfl).1 rfl

/-- Claim C6 (amended): `Update()` returns the `display not initialized`
error exactly when the device handle is nil (a handle that was never
successfully opened), in which case it performs no device I/O and changes
no state; `Close()`, however, does not clear the handle — it leaves
`devPresent` and all logical state intact — so an `Update()` after
`Close()` does not fail with this error. -/
theorem update_notReady_iff (d : Display) (orc : Nat → Bool) :
    ((update orc d).err = some DispErr.notReady ↔ d.devPresent = false) ∧
    (d.devPresent = false → update orc d = ⟨d, [], some DispErr.notReady⟩) ∧
    (close d).devPresent = d.devPresent ∧
    (close d).inited = d.inited ∧
    (close d).lines = d.lines ∧
    (close d).charPositions = d.charPositions ∧
    (close d).prevLines = d.prevLines := by
  have key : d.devPresent = true → ¬((update orc d).err = some DispErr.notReady) := by
    intro hdev
    cases hin : d.inited with
    | false =>
      cases ho : orc 0 with
      | true => rw [update_uninit_ok d orc hdev hin ho]; simp
      | false => rw [update_uninit_fail d orc hdev hin ho]; simp
    | true =>
      cases hcl : anyDirty d with
      | false => rw [update_clean d orc hdev hin hcl]; simp
      | true =>
        rw [update_dirty d orc hdev hin hcl]
        cases hf : (redrawChangedChars orc d).failed <;> simp [hf]
  refine ⟨⟨?_, ?_⟩, ?_, ?_, ?_, ?_, ?_, ?_⟩
  · intro h
    cases hdev : d.devPresent with
    | false => rfl
    | true => exact absurd h (key hdev)
  · intro h
    rw [update_noDev d orc h]
  · exact fun h => update_noDev d orc h
  · rw [close]; split <;> rfl
  · rw [close]; split <;> rfl
  · rw [close]; split <;> rfl
  · rw [close]; split <;> rfl
  · rw [close]; split <;> rfl

/-- Witness for C6 (amended): a nil-handle display gets the error. -/
theorem update_notReady_iff_witness :
    ({ newDisplay with devPresent := false } : Display).devPresent = false ∧
      update (fun _ => true) { newDisplay with devPresent := false } =
        ⟨{ newDisplay with devPresent := false }, [], some DispErr.notReady⟩ :=
  ⟨rfl,
   (update_notReady_iff { newDisplay with devPresent := false }
      (fun _ => true)).2.1 rfl⟩

/-- Counterexample to claim C6 as stated: after `Close()` on a freshly
opened display, `Update()` does not fail with the `display not
initialized` error — it proceeds and performs a device write (the full
first draw), because `Close()` leaves the device handle in place. -/
theorem close_then_update_counterexample :
    (update (fun _ => true) (close newDisplay)).err = none ∧
      (update (fun _ => true) (close newDisplay)).evs.length = 1 := by
  decide

/-- Claim C2 (amended): if `Update()` succeeds and either the display was
already initialised or no dirty flag was set beforehand, then a second
`Update()` with no intervening `WriteLine`/`Clear` performs zero device
writes and leaves all state unchanged.  (When the first call is the
initial full draw with dirty flags pending, the flags survive the full
draw and the second call instead performs a sparse redraw.) -/
theorem update_idempotent_after_success (d : Display) (orc orc2 : Nat → Bool)
    (hdev : d.devPresent = true)
    (hpre : d.inited = true ∨ ∀ a b, d.charPositions a b = false)
    (hok : (update orc d).err = none) :
    update orc2 (update orc d).disp = ⟨(update orc d).disp, [], none⟩ := by
  have hstate : (update orc d).disp.devPresent = true ∧
      (update orc d).disp.inited = true ∧
      ∀ a b, (update orc d).disp.charPositions a b = false := by
    cases hin : d.inited with
    | false =>
      have hflags : ∀ a b, d.charPositions a b = false := by
        rcases hpre with h | h
        · rw [hin] at h
          cases h
        · exact h
      cases ho : orc 0 with
      | false =>
        rw [update_uninit_fail d orc hdev hin ho] at hok
        cases hok
      | true =>
        rw [update_uninit_ok d orc hdev hin ho]
        exact ⟨hdev, rfl, hflags⟩
    | true =>
      cases hcl : anyDirty d with
      | false =>
        rw [update_clean d orc hdev hin hcl]
        exact ⟨hdev, hin, (anyDirty_false_iff d).mp hcl⟩
      | true =>
        rw [update_dirty d orc hdev hin hcl] at hok ⊢
        obtain ⟨_, hi, hdev2, _, _, _, hokpart⟩ := redrawGo_inv orc cells d 0
        have hfailed : (redrawChangedChars orc d).failed = false := by
          cases hf : (redrawChangedChars orc d).failed with
          | false => rfl
          | true =>
            rw [hf] at hok
            simp at hok
        obtain ⟨hflags, _⟩ := hokpart hfailed
        refine ⟨hdev2.trans hdev, hi.trans hin, ?_⟩
        intro a b
        exact hflags (a, b) (mem_cells _)
  obtain ⟨h1, h2, h3⟩ := hstate
  have hcl2 : anyDirty (update orc d).disp = false := (anyDirty_false_iff _).mpr h3
  exact update_clean _ orc2 h1 h2 hcl2

/-- Witness for C2 (amended): fresh display, both updates succeed, the
second is a structural no-op. -/
theorem update_idempotent_after_success_witness :
    newDisplay.devPresent = true ∧
      (∀ a b, newDisplay.charPositions a b = false) ∧
      (update (fun _ => true) newDisplay).err = none ∧
      update (fun _ => true) (update (fun _ => true) newDisplay).disp =
        ⟨(update (fun _ => true) newDisplay).disp, [], none⟩ :=
  ⟨rfl, by decide, by decide,
   update_idempotent_after_success newDisplay (fun _ => true) (fun _ => true) rfl
     (Or.inr (by decide)) (by decide)⟩

/-- Counterexample to claim C2 as stated: write a line on a fresh display,
then call `Update()` twice.  The first call (the initial full draw)
succeeds, but the second call is not a no-op — it performs one per-cell
device write, because the full draw does not clear the dirty flags set by
`WriteLine`. -/
theorem update_idempotent_counterexample :
    (update (fun _ => true) (writeLine newDisplay 0 ['A'])).err = none ∧
      (update (fun _ => true)
          (update (fun _ => true)
            (writeLine newDisplay 0 ['A'])).disp).evs.length = 1 := by
  decide

/-- Claim C3 (amended): `Clear()` resets all 4 lines to empty and marks
all 16 positions of every previously non-empty line dirty, leaving the
flags of already-empty lines as they are (so leftover dirty flags
survive the marking); it then performs the redraw itself rather than
deferring to `Update()`: on an initialised display a sparse redraw that
blanks exactly the cells dirty after marking — the marked cells together
with any leftover dirty cells of already-empty lines, which are exactly
the marked cells when no flag was pending beforehand — clearing all
flags and snapshotting the now-empty lines, so that a subsequent
`Update()` on an open device is a no-op; on an uninitialised display it
pushes a single full black frame, leaving marks and snapshot as they
were. -/
theorem clear_marks_and_redraws (d : Display) (orc2 : Nat → Bool) :
    (∀ i j, (clearMark d).charPositions i j =
      if d.lines i = [] then d.charPositions i j else true) ∧
    (∀ (orc : Nat → Bool) (i : Fin maxLines), (clear orc d).1.lines i = []) ∧
    (d.inited = false → ∀ orc : Nat → Bool,
      clear orc d =
        (clearMark d, if orc 0 then [WriteEv.full fun _ => []] else [])) ∧
    (d.inited = true →
      ((∀ i j, (clear (fun _ => true) d).1.charPositions i j = false) ∧
        (∀ i, (clear (fun _ => true) d).1.prevLines i = []) ∧
        (clear (fun _ => true) d).2 =
          (cells.filter fun x => (clearMark d).charPositions x.1 x.2).map
            (fun x => WriteEv.cell x.1 x.2) ∧
        ((∀ a b, d.charPositions a b = false) →
          (clear (fun _ => true) d).2 =
            (cells.filter fun x => !((d.lines x.1).isEmpty)).map
              (fun x => WriteEv.cell x.1 x.2)) ∧
        ((∃ i, d.lines i ≠ []) → (clear (fun _ => true) d).2 ≠ []) ∧
        (d.devPresent = true →
          update orc2 (clear (fun _ => true) d).1 =
            ⟨(clear (fun _ => true) d).1, [], none⟩))) := by
  refine ⟨fun i j => rfl, ?_, ?_, ?_⟩
  · intro orc i
    cases hin : d.inited with
    | true =>
      have hcl1 : (clear orc d).1 =
          (redrawGo orc cells (clearMark d) 0).disp := by
        simp [clear, clearMark_inited, hin, redrawChangedChars]
      rw [hcl1]
      exact congrFun (redrawGo_inv orc cells (clearMark d) 0).1 i
    | false =>
      have hcl1 : (clear orc d).1 = clearMark d := by
        simp [clear, clearMark_inited, hin]
      rw [hcl1]
      rfl
  · intro hin orc
    simp [clear, clearMark_inited, hin]
  · intro hin
    have hcl1 : (clear (fun _ => true) d).1 =
        (redrawGo (fun _ => true) cells (clearMark d) 0).disp := by
      simp [clear, clearMark_inited, hin, redrawChangedChars]
    have hcl2 : (clear (fun _ => true) d).2 =
        (redrawGo (fun _ => true) cells (clearMark d) 0).evs := by
      simp [clear, clearMark_inited, hin, redrawChangedChars]
    obtain ⟨hof, hoe, hoflag⟩ :=
      redrawGo_ok (fun _ => true) (fun _ => rfl) cells cells_nodup (clearMark d) 0
    obtain ⟨hlines, hinit, hdev2, _, _, _, hokpart⟩ :=
      redrawGo_inv (fun _ => true) cells (clearMark d) 0
    obtain ⟨hflags0, hprev⟩ := hokpart hof
    refine ⟨?_, ?_, ?_, ?_, ?_, ?_⟩
    · intro i j
      rw [hcl1, hoflag i j]
      simp [mem_cells (i, j)]
    · intro i
      rw [hcl1]
      exact congrFun hprev i
    · rw [hcl2]
      exact hoe
    · intro hclean
      rw [hcl2, hoe]
      congr 1
      apply List.filter_congr
      intro x hx
      rw [clearMark_flags]
      cases hemp : d.lines x.1 with
      | nil =>
        rw [if_pos rfl, hclean x.1 x.2]
        rfl
      | cons y ys =>
        rw [if_neg (fun h => List.noConfusion h)]
        rfl
    · intro hne
      obtain ⟨i, hi⟩ := hne
      rw [hcl2, hoe]
      intro hnil
      have hmem : ((i, (0 : Fin maxChars)) ∈
          cells.filter fun x => (clearMark d).charPositions x.1 x.2) := by
        apply List.mem_filter.mpr
        refine ⟨mem_cells _, ?_⟩
        show (clearMark d).charPositions i 0 = true
        rw [clearMark_flags, if_neg hi]
      have hmem2 : (WriteEv.cell i 0) ∈
          (cells.filter fun x => (clearMark d).charPositions x.1 x.2).map
            (fun x => WriteEv.cell x.1 x.2) :=
        List.mem_map.mpr ⟨(i, 0), hmem, rfl⟩
      rw [hnil] at hmem2
      cases hmem2
    · intro hdev
      rw [hcl1]
      apply update_clean
      · exact hdev2.trans hdev
      · exact hinit.trans hin
      · apply (anyDirty_false_iff _).mpr
        intro a b
        rw [hoflag a b]
        simp [mem_cells (a, b)]

/-- A display that has gone through its first full draw: initialised, all
lines empty, no dirty flags. -/
def demoInited : Display := (update (fun _ => true) newDisplay).disp

/-- An initialised display showing `"A"` on line 0 with every flag clear
(the sparse redraw of the second update cleared them). -/
def demoReady : Display :=
  (update (fun _ => true) (writeLine demoInited 0 ['A'])).disp

/-- Witness for C3: on the initialised `demoReady` (no pending flags,
`"A"` on line 0) sixteen cell writes happen inside `Clear()` itself, and
on an uninitialised display with a written line `Clear()` pushes a single
full black frame. -/
theorem clear_marks_and_redraws_witness :
    demoReady.inited = true ∧
      (∀ a b, demoReady.charPositions a b = false) ∧
      (∃ i, demoReady.lines i ≠ []) ∧
      (clear (fun _ => true) demoReady).2 =
        (cells.filter fun x => !((demoReady.lines x.1).isEmpty)).map
          (fun x => WriteEv.cell x.1 x.2) ∧
      (clear (fun _ => true) demoReady).2 ≠ [] ∧
      (writeLine newDisplay 0 ['A']).inited = false ∧
      clear (fun _ => true) (writeLine newDisplay 0 ['A']) =
        (clearMark (writeLine newDisplay 0 ['A']), [WriteEv.full fun _ => []]) :=
  ⟨rfl, by decide, ⟨0, by decide⟩,
   ((clear_marks_and_redraws demoReady (fun _ => true)).2.2.2 rfl).2.2.2.1
     (by decide),
   ((clear_marks_and_redraws demoReady (fun _ => true)).2.2.2 rfl).2.2.2.2.1
     ⟨0, by decide⟩,
   by decide,
   (clear_marks_and_redraws (writeLine newDisplay 0 ['A'])
      (fun _ => true)).2.2.1 (by decide) (fun _ => true)⟩

/-- Counterexample to claim C3 as stated: `Clear()` is claimed to perform
no device I/O itself, but on an initialised display showing `"A"` it
performs sixteen per-cell device writes during the call. -/
theorem clear_performs_io_counterexample :
    ((clear (fun _ => true) demoReady).2).length = 16 := by
  decide

/-- The dirty cells of a display in the scan order of the sparse redraw. -/
def dirtyCells (d : Display) : List (Fin maxLines × Fin maxChars) :=
  cells.filter fun x => d.charPositions x.1 x.2

lemma dirtyCells_nodup (d : Display) : (dirtyCells d).Nodup :=
  List.Nodup.filter _ cells_nodup

/-- Claim C5: on an initialised display, if the oracle makes the
`K`-th per-cell write of the sparse redraw fail (all earlier ones
succeeding), `Update()` returns the transfer error immediately: exactly the
first `K` dirty cells were pushed and have their flags cleared, the
failing and all later dirty cells keep their flags, the snapshot and the
lines are untouched, and a subsequent all-success `Update()` pushes
exactly the still-dirty cells and clears everything. -/
theorem update_fail_resume (d : Display) (orc : Nat → Bool) (K : Nat)
    (hdev : d.devPresent = true) (hin : d.inited = true)
    (horcs : ∀ m, m < K → orc m = true) (horcf : orc K = false)
    (hK : K < (dirtyCells d).length) :
    (update orc d).err = some DispErr.transfer ∧
    (update orc d).evs =
      ((dirtyCells d).take K).map (fun x => WriteEv.cell x.1 x.2) ∧
    (update orc d).disp.prevLines = d.prevLines ∧
    (update orc d).disp.lines = d.lines ∧
    (∀ a b, (update orc d).disp.charPositions a b =
      (d.charPositions a b && !(decide ((a, b) ∈ (dirtyCells d).take K)))) ∧
    (update (fun _ => true) (update orc d).disp).err = none ∧
    (update (fun _ => true) (update orc d).disp).evs =
      ((dirtyCells d).drop K).map (fun x => WriteEv.cell x.1 x.2) ∧
    (∀ a b,
      (update (fun _ => true) (update orc d).disp).disp.charPositions a b = false) := by
  have horcs0 : ∀ m, m < K → orc (0 + m) = true := by
    intro m hm
    rw [Nat.zero_add]
    exact horcs m hm
  have horcf0 : orc (0 + K) = false := by
    rw [Nat.zero_add]
    exact horcf
  have hKf : K < (cells.filter fun x => d.charPositions x.1 x.2).length := hK
  have hdirty : anyDirty d = true := by
    cases hcl : anyDirty d with
    | true => rfl
    | false =>
      exfalso
      have hempty : (cells.filter fun x => d.charPositions x.1 x.2) = [] := by
        apply List.filter_eq_nil_iff.mpr
        intro x hx
        simp [(anyDirty_false_iff d).mp hcl x.1 x.2]
      rw [hempty] at hKf
      cases hKf
  obtain ⟨hff, hfe, hfp, hfflag⟩ :=
    redrawGo_fail orc cells cells_nodup d 0 K horcs0 horcf0 hKf
  have hu := update_dirty d orc hdev hin hdirty
  have hu1disp : (update orc d).disp = (redrawGo orc cells d 0).disp := by
    rw [hu]
    rfl
  have hu1evs : (update orc d).evs = (redrawGo orc cells d 0).evs := by
    rw [hu]
    rfl
  have hu1err : (update orc d).err =
      (if (redrawGo orc cells d 0).failed then some DispErr.transfer else none) := by
    rw [hu]
    rfl
  obtain ⟨hl2, hi2, hdev2, _, _, _, _⟩ := redrawGo_inv orc cells d 0
  have hdev1 : (redrawGo orc cells d 0).disp.devPresent = true := hdev2.trans hdev
  have hin1 : (redrawGo orc cells d 0).disp.inited = true := hi2.trans hin
  have hdc1 : (cells.filter fun x =>
      (redrawGo orc cells d 0).disp.charPositions x.1 x.2) = (dirtyCells d).drop K := by
    have h1 : (cells.filter fun x =>
        (redrawGo orc cells d 0).disp.charPositions x.1 x.2) =
        cells.filter fun x =>
          (!(decide (x ∈ (cells.filter fun y =>
            d.charPositions y.1 y.2).take K))) && d.charPositions x.1 x.2 := by
      apply List.filter_congr
      intro x hx
      rw [hfflag x.1 x.2, Bool.and_comm]
    rw [h1, ← List.filter_filter]
    exact filter_not_mem_take (dirtyCells d) K (dirtyCells_nodup d)
  have hdirty1 : anyDirty (redrawGo orc cells d 0).disp = true := by
    cases hcl : anyDirty (redrawGo orc cells d 0).disp with
    | true => rfl
    | false =>
      exfalso
      have hempty : (cells.filter fun x =>
          (redrawGo orc cells d 0).disp.charPositions x.1 x.2) = [] := by
        apply List.filter_eq_nil_iff.mpr
        intro x hx
        simp [(anyDirty_false_iff _).mp hcl x.1 x.2]
      rw [hdc1] at hempty
      have hle := List.drop_eq_nil_iff.mp hempty
      omega
  obtain ⟨hsf, hse, hsflag⟩ :=
    redrawGo_ok (fun _ => true) (fun _ => rfl) cells cells_nodup
      (redrawGo orc cells d 0).disp 0
  have hu2 := update_dirty (redrawGo orc cells d 0).disp (fun _ => true)
    hdev1 hin1 hdirty1
  have hu2disp : (update (fun _ => true) (redrawGo orc cells d 0).disp).disp =
      (redrawGo (fun _ => true) cells (redrawGo orc cells d 0).disp 0).disp := by
    rw [hu2]
    rfl
  have hu2evs : (update (fun _ => true) (redrawGo orc cells d 0).disp).evs =
      (redrawGo (fun _ => true) cells (redrawGo orc cells d 0).disp 0).evs := by
    rw [hu2]
    rfl
  have hu2err : (update (fun _ => true) (redrawGo orc cells d 0).disp).err =
      (if (redrawGo (fun _ => true) cells (redrawGo orc cells d 0).disp 0).failed
        then some DispErr.transfer else none) := by
    rw [hu2]
    rfl
  refine ⟨?_, ?_, ?_, ?_, ?_, ?_, ?_, ?_⟩
  · rw [hu1err, hff]
    rfl
  · rw [hu1evs]
    exact hfe
  · rw [hu1disp]
    exact hfp
  · rw [hu1disp]
    exact hl2
  · intro a b
    rw [hu1disp]
    exact hfflag a b
  · rw [hu1disp, hu2err, hsf]
    rfl
  · rw [hu1disp, hu2evs, hse, hdc1]
  · intro a b
    rw [hu1disp, hu2disp, hsflag a b]
    simp [mem_cells (a, b)]

/-- An initialised display with a 16-character line 0 pending: all 16
cells of line 0 are dirty. -/
def demoSixteen : Display :=
  writeLine demoInited 0
    ['A','B','C','D','E','F','G','H','I','J','K','L','M','N','O','P']

/-- Witness for C5 in the spec's scenario: 16 dirty cells in line 0, the
device fails on the write of cell 5; the error is returned, and the
following successful update pushes exactly cells 5 to 15. -/
theorem update_fail_resume_witness :
    demoSixteen.devPresent = true ∧ demoSixteen.inited = true ∧
      (∀ m, m < 5 → (!(m == 5)) = true) ∧ ((!(5 == 5)) = false) ∧
      5 < (dirtyCells demoSixteen).length ∧
      (update (fun n => !(n == 5)) demoSixteen).err = some DispErr.transfer ∧
      (update (fun n => !(n == 5)) demoSixteen).evs =
        ((dirtyCells demoSixteen).take 5).map (fun x => WriteEv.cell x.1 x.2) ∧
      (update (fun _ => true)
          (update (fun n => !(n == 5)) demoSixteen).disp).evs =
        ((dirtyCells demoSixteen).drop 5).map (fun x => WriteEv.cell x.1 x.2) :=
  ⟨by decide, by decide, by decide, by decide, by decide,
   (update_fail_resume demoSixteen (fun n => !(n == 5)) 5 (by decide) (by decide)
      (by decide) (by decide) (by decide)).1,
   (update_fail_resume demoSixteen (fun n => !(n == 5)) 5 (by decide) (by decide)
      (by decide) (by decide) (by decide)).2.1,
   (update_fail_resume demoSixteen (fun n => !(n == 5)) 5 (by decide) (by decide)
      (by decide) (by decide) (by decide)).2.2.2.2.2.2.1⟩

/-- Counterexample to claim C1 as stated: after a full draw of an empty
display (snapshot all blank), write `"AB"` and then `"AC"` to line 0.  The
second `WriteLine` overwrites the dirty flags with the diff of `"AB"`
against `"AC"`, so cell (0,0) is not dirty even though its current
character `A` differs from the blank most recently pushed to the device. -/
theorem writeLine_dirty_not_snapshot_counterexample :
    (writeLine (writeLine demoInited 0 ['A','B']) 0 ['A','C']).charPositions 0 0 =
        false ∧
      effChar ((writeLine (writeLine demoInited 0 ['A','B']) 0 ['A','C']).lines 0) 0 ≠
        effChar ((writeLine (writeLine demoInited 0 ['A','B']) 0
          ['A','C']).prevLines 0) 0 := by
  decide

end OledInfo

